import Mathlib

/-!
Shallow embedding of src/etl/national_parks.py.

Column names and scalar attribute values are modelled as lists of
character codes (List Nat), so Python's str.lower / replace operate
per-code.  Geometries are an inductive type carrying opaque coordinate
identifiers; the pipeline never computes on coordinates, only on the
geometry type tag, exactly like the source.
-/

deriving instance DecidableEq for Except

namespace NationalParks

/-- A column name: character codes of the Python string. -/
abbrev ColName : Type := List Nat

/-- Character codes of the reserved column "fid" (src line 125). -/
def fidCodes : ColName := [102, 105, 100]

/-- Character codes of "name". -/
def nameCodes : ColName := [110, 97, 109, 101]

/-- Character codes of "geometry". -/
def geomCodes : ColName := [103, 101, 111, 109, 101, 116, 114, 121]

/-- Python str.lower on one character code (ASCII case fold, as in the
column names the pipeline sees). -/
def lowerChar (c : Nat) : Nat := if 65 ≤ c ∧ c ≤ 90 then c + 32 else c

/-- replace every ":" (58) by "_" (95) on one character code. -/
def colonToUnderscore (c : Nat) : Nat := if c = 58 then 95 else c

/-- Canonicalization of one column name, translating
col.lower().replace(":", "_").replace(" ", "") from src line 130. -/
def canonName (s : ColName) : ColName :=
  ((s.map lowerChar).map colonToUnderscore).filter (fun c => decide (c ≠ 32))

/-- Decimal digits helper with explicit fuel (structural recursion so the
kernel can evaluate it). -/
def natDigitsAux : Nat → Nat → List Nat
  | 0, _ => []
  | fuel + 1, n => if n < 10 then [48 + n] else natDigitsAux fuel (n / 10) ++ [48 + n % 10]

/-- The character codes of Python str(n) for a natural number n. -/
def natDigits (n : Nat) : List Nat := natDigitsAux (n + 1) n

/-- The candidate name f-string base_count from src line 133. -/
def suffixed (base : ColName) (count : Nat) : ColName :=
  base ++ (95 :: natDigits count)

/-- The while loop of src lines 132-134: keep trying base_count,
incrementing count, until the candidate is not in seen.  fuel bounds the
iteration; resolveCol passes enough fuel for the loop to always find the
first free candidate (proved below). -/
def freeSuffix (seen : List ColName) (base : ColName) : Nat → Nat → ColName
  | 0, count => suffixed base count
  | fuel + 1, count =>
    if suffixed base count ∈ seen then freeSuffix seen base fuel (count + 1)
    else suffixed base count

/-- Resolve one column against the seen set: src lines 130-134. -/
def resolveCol (seen : List ColName) (col : ColName) : ColName :=
  let newCol := canonName col
  if newCol ∈ seen then freeSuffix seen (canonName col) (seen.length + 1) 1 else newCol

/-- The for loop of src lines 128-136, threading the seen set. -/
def renameDupColsAux (seen : List ColName) : List ColName → List ColName
  | [] => []
  | c :: cs =>
    let r := resolveCol seen c
    r :: renameDupColsAux (r :: seen) cs

/-- rename_duplicated_columns (src lines 123-138) restricted to the column
names: delete the literal fid column, then uniquify canonical names. -/
def renameDupCols (cols : List ColName) : List ColName :=
  renameDupColsAux [] (cols.filter (fun c => decide (c ≠ fidCodes)))

/-! ## Geometry model

Shapely geometries, with coordinates abstracted to opaque identifiers
(Nat): the pipeline only reads the geom_type tag and wraps whole
geometries, never individual coordinates.  A geometry collection's
payload is likewise opaque since the code never looks inside one. -/

inductive Geom : Type where
  | point : Nat → Geom
  | multiPoint : List Nat → Geom
  | lineString : List Nat → Geom
  | multiLineString : List (List Nat) → Geom
  | polygon : List (List Nat) → Geom
  | multiPolygon : List (List (List Nat)) → Geom
  | geometryCollection : Geom
deriving DecidableEq

/-- The geom_type / .type string of a geometry, as an enum. -/
inductive GType : Type where
  | point | multiPoint | lineString | multiLineString
  | polygon | multiPolygon | geometryCollection
deriving DecidableEq

def Geom.geomType : Geom → GType
  | .point _ => .point
  | .multiPoint _ => .multiPoint
  | .lineString _ => .lineString
  | .multiLineString _ => .multiLineString
  | .polygon _ => .polygon
  | .multiPolygon _ => .multiPolygon
  | .geometryCollection => .geometryCollection

/-- geometry.type.isin(["Point", "MultiPoint"]) — src line 101. -/
def isPointType (t : GType) : Bool :=
  match t with
  | .point | .multiPoint => true
  | _ => false

/-- geometry.type.isin(["LineString", "MultiLineString"]) — src line 102. -/
def isLineType (t : GType) : Bool :=
  match t with
  | .lineString | .multiLineString => true
  | _ => false

/-- geometry.type.isin(["Polygon", "MultiPolygon"]) — src line 103. -/
def isPolyType (t : GType) : Bool :=
  match t with
  | .polygon | .multiPolygon => true
  | _ => false

/-- lambda geom: MultiPoint([geom]) if geom.geom_type == "Point" else geom
(src lines 106-108). -/
def promotePointGeom (g : Geom) : Geom :=
  match g with
  | .point p => .multiPoint [p]
  | g => g

/-- lambda geom: MultiLineString([geom]) if geom.geom_type == "LineString"
else geom (src lines 109-111). -/
def promoteLineGeom (g : Geom) : Geom :=
  match g with
  | .lineString ps => .multiLineString [ps]
  | g => g

/-- lambda geom: MultiPolygon([geom]) if geom.geom_type == "Polygon"
else geom (src lines 112-114). -/
def promotePolyGeom (g : Geom) : Geom :=
  match g with
  | .polygon rs => .multiPolygon [rs]
  | g => g

/-! ## Dataframe model

A GeoDataFrame is modelled with its geometry column held apart from the
attribute columns (geopandas keeps the active geometry distinguished);
a missing attribute value (pandas NaN) is none.  Cells are aligned
positionally with the column-name list.  Scalar attribute values are
opaque character-code lists. -/

/-- One attribute cell: none is pandas NaN / missing. -/
abbrev Cell : Type := Option (List Nat)

structure Row where
  geom : Option Geom
  cells : List Cell
deriving DecidableEq

structure DF where
  cols : List ColName
  rows : List Row
deriving DecidableEq

/-- Value of the (first) column named c in an aligned row, none when the
column is absent. -/
def cellAt (cols : List ColName) (cells : List Cell) (c : ColName) : Cell :=
  match cols, cells with
  | [], _ => none
  | _, [] => none
  | c0 :: cs, v :: vs => if c0 = c then v else cellAt cs vs c

/-- pd.concat column alignment: union of column lists in order of first
appearance. -/
def insertNewCol (acc : List ColName) (c : ColName) : List ColName :=
  if c ∈ acc then acc else acc ++ [c]

def unionCols (ls : List (List ColName)) : List ColName :=
  ls.foldl (fun acc cs => cs.foldl insertNewCol acc) []

/-- Reindex a row from its frame's columns to the concatenated column
set; absent columns become NaN. -/
def reindexRow (oldCols newCols : List ColName) (r : Row) : Row :=
  ⟨r.geom, newCols.map (fun c => cellAt oldCols r.cells c)⟩

/-- del gdf['fid'] also drops that column's cells; keep the cells whose
column name differs from the deleted label. -/
def dropFidCells (cols : List ColName) (cells : List Cell) : List Cell :=
  ((cols.zip cells).filter (fun p => decide (p.1 ≠ fidCodes))).map (fun p => p.2)

/-- rename_duplicated_columns (src lines 123-138) on a whole frame. -/
def renameDF (df : DF) : DF :=
  ⟨renameDupCols df.cols,
   df.rows.map (fun r => ⟨r.geom, dropFidCells df.cols r.cells⟩)⟩

/-! ## save_parks_to_file (src lines 76-120), staged -/

/-- A normalized record: the strict {name, geometry, properties} shape of
src line 98.  properties keeps the serialized dict as an association
list; json.dumps itself is an external encoding. -/
structure NRec where
  name : Cell
  geom : Geom
  props : List (ColName × Cell)
deriving DecidableEq

/-- Union of the concatenated frames' columns (src line 83). -/
def allColsOf (parksData : List DF) : List ColName :=
  unionCols (parksData.map DF.cols)

/-- Rows of the concatenated frame, aligned to the union columns
(src line 83). -/
def rows0 (parksData : List DF) : List Row :=
  parksData.flatMap (fun df => df.rows.map (reindexRow df.cols (allColsOf parksData)))

/-- all_parks_gdf[all_parks_gdf.geometry.notnull()] (src line 86). -/
def rows1 (parksData : List DF) : List Row :=
  (rows0 parksData).filter (fun r => r.geom.isSome)

/-- Columns after the first rename_duplicated_columns call (src line 88). -/
def cols1 (parksData : List DF) : List ColName :=
  renameDupCols (allColsOf parksData)

/-- Columns after the second rename_duplicated_columns call (src line 90). -/
def finalCols (parksData : List DF) : List ColName :=
  renameDupCols (cols1 parksData)

/-- Cells after both rename passes (each pass deletes the cells of a
column literally named fid at that point). -/
def rows2 (parksData : List DF) : List Row :=
  (rows1 parksData).map
    (fun r => ⟨r.geom, dropFidCells (cols1 parksData) (dropFidCells (allColsOf parksData) r.cells)⟩)

/-- row.drop(["name", "geometry"]).to_dict() (src lines 94-95): every
column-value pair except name and the geometry column. -/
def mkProps (cols : List ColName) (cells : List Cell) : List (ColName × Cell) :=
  (cols.zip cells).filter (fun p => decide (p.1 ≠ nameCodes) && decide (p.1 ≠ geomCodes))

/-- Build the final {name, geometry, properties} record of one row
(src lines 93-98). -/
def mkNRec (cols : List ColName) (r : Row) : NRec :=
  ⟨cellAt cols r.cells nameCodes, r.geom.getD (Geom.point 0), mkProps cols r.cells⟩

/-- Normalization stage of save_parks_to_file (src lines 83-98).  pandas
raises KeyError when the name label is absent: row.drop(["name",
"geometry"]) and the [["name", "geometry", "properties"]] selection both
require a name column; that is the error case. -/
def normalizeRecords (parksData : List DF) : Except Unit (List NRec) :=
  if nameCodes ∈ finalCols parksData then
    .ok ((rows2 parksData).map (mkNRec (finalCols parksData)))
  else
    .error ()

/-- Partition filters, src lines 101-103. -/
def pointsOf (rs : List NRec) : List NRec :=
  rs.filter (fun r => isPointType r.geom.geomType)

def linesOf (rs : List NRec) : List NRec :=
  rs.filter (fun r => isLineType r.geom.geomType)

def polysOf (rs : List NRec) : List NRec :=
  rs.filter (fun r => isPolyType r.geom.geomType)

/-- Per-record promotion inside each partition, src lines 106-114. -/
def promoteRec (f : Geom → Geom) (r : NRec) : NRec :=
  ⟨r.name, f r.geom, r.props⟩

/-- Outcome of save_parks_to_file: the early return on an empty
parks_data list, a raised pandas error, or an invocation of the layered
writer with the three (possibly empty) promoted partitions. -/
inductive SaveOutcome : Type where
  | skippedNoData
  | errored
  | wrote (points lines polygons : List NRec)
deriving DecidableEq

/-- save_parks_to_file (src lines 76-120). -/
def saveParksToFile (parksData : List DF) : SaveOutcome :=
  if parksData.isEmpty then .skippedNoData
  else
    match normalizeRecords parksData with
    | .error _ => .errored
    | .ok nrecs =>
      .wrote ((pointsOf nrecs).map (promoteRec promotePointGeom))
             ((linesOf nrecs).map (promoteRec promoteLineGeom))
             ((polysOf nrecs).map (promoteRec promotePolyGeom))

/-! ## Fetch task and orchestrator (src lines 45-73)

The outbound OSM query is an oracle: each country comes with the outcome
its fetch_features call would have (a frame, or a raised exception with
an opaque message).  The thread pool's as_completed order is an explicit
permutation of the submitted task indices. -/

abbrev Err : Type := List Nat

/-- One submitted task: the country's NAME and the oracle outcome of its
fetch_features call. -/
abbrev Task : Type := ColName × Except Err DF

/-- gdf["country"] = country_name (src line 52): overwrite the column if
present, else append it, broadcasting one value to every row. -/
def setColumn (df : DF) (c : ColName) (v : Cell) : DF :=
  if c ∈ df.cols then
    ⟨df.cols, df.rows.map (fun r => ⟨r.geom, r.cells.set (df.cols.indexOf c) v⟩)⟩
  else
    ⟨df.cols ++ [c], df.rows.map (fun r => ⟨r.geom, r.cells ++ [v]⟩)⟩

/-- Character codes of "country". -/
def countryCodes : ColName := [99, 111, 117, 110, 116, 114, 121]

def addCountry (name : ColName) (df : DF) : DF :=
  setColumn df countryCodes (some name)

/-- Console reports the run produces. -/
inductive Log : Type where
  | fetched (country : ColName)
  | fetchFailed (country : ColName) (e : Err)
  | processFailed (country : ColName) (e : Err)
deriving DecidableEq

/-- fetch_parks_for_country (src lines 45-57): the try block tags the
frame and prints the country; except Exception prints the failure and
returns None.  The first component is the value the task's future
delivers — Except models that the function body could itself raise; the
catch-all makes it always .ok. -/
def fetchParksForCountryE (name : ColName) (fetchResult : Except Err DF) :
    Except Err (Option DF) × List Log :=
  match fetchResult with
  | .ok gdf => (.ok (some (addCountry name gdf)), [.fetched name])
  | .error e => (.ok none, [.fetchFailed name e])

/-- Handling of one completed future (src lines 66-72): try
future.result(); append when not None; the except branch logs a
processing error. -/
def processOne (acc : List DF × List Log) (t : Task) : List DF × List Log :=
  match fetchParksForCountryE t.1 t.2 with
  | (.ok (some gdf), lg) => (acc.1 ++ [gdf], acc.2 ++ lg)
  | (.ok none, lg) => (acc.1, acc.2 ++ lg)
  | (.error e, lg) => (acc.1, acc.2 ++ lg ++ [.processFailed t.1 e])

/-- retrieve_parks_parallel (src lines 60-73): process the futures in
as_completed order, an arbitrary permutation of the submitted indices. -/
def retrieveParksParallel (tasks : List Task) (order : List Nat) :
    List DF × List Log :=
  (order.map (fun i => tasks.getD i ([], .error []))).foldl processOne ([], [])

/-! ## Lemmas about canonicalization -/

lemma canonName_eq_map_filter (s : ColName) :
    canonName s = (s.map (fun c => colonToUnderscore (lowerChar c))).filter
      (fun c => decide (c ≠ 32)) := by
  simp [canonName, List.map_map, Function.comp_def]

lemma canonChar_fixed (c : Nat) :
    lowerChar (colonToUnderscore (lowerChar c)) = colonToUnderscore (lowerChar c) ∧
    colonToUnderscore (colonToUnderscore (lowerChar c)) = colonToUnderscore (lowerChar c) ∧
    (c ≠ 32 → colonToUnderscore (lowerChar c) ≠ 32) := by
  simp only [lowerChar, colonToUnderscore]
  split_ifs <;> omega

lemma canonName_of_fixed_aux (t : ColName)
    (h : ∀ x ∈ t, lowerChar x = x ∧ colonToUnderscore x = x ∧ x ≠ 32) :
    (t.map (fun c => colonToUnderscore (lowerChar c))).filter
      (fun c => decide (c ≠ 32)) = t := by
  induction t with
  | nil => rfl
  | cons a t ih =>
    have ha := h a (List.mem_cons_self a t)
    have ht := ih (fun x hx => h x (List.mem_cons_of_mem a hx))
    simp only [List.map_cons, List.filter_cons, ha.1, ha.2.1]
    rw [if_pos (by simpa using ha.2.2), ht]

/-- Characters already canonical (and not spaces) are left alone by the
whole canonicalization chain. -/
lemma canonName_of_fixed (t : ColName)
    (h : ∀ x ∈ t, lowerChar x = x ∧ colonToUnderscore x = x ∧ x ≠ 32) :
    canonName t = t := by
  rw [canonName_eq_map_filter]
  exact canonName_of_fixed_aux t h

lemma mem_canonName_fixed {s : ColName} {x : Nat} (hx : x ∈ canonName s) :
    lowerChar x = x ∧ colonToUnderscore x = x ∧ x ≠ 32 := by
  rw [canonName_eq_map_filter] at hx
  have h1 := (List.mem_filter.mp hx).1
  have h2 := (List.mem_filter.mp hx).2
  rcases List.mem_map.mp h1 with ⟨c, _, rfl⟩
  exact ⟨(canonChar_fixed c).1, (canonChar_fixed c).2.1, by simpa using h2⟩

lemma canonName_idem (s : ColName) : canonName (canonName s) = canonName s :=
  canonName_of_fixed _ (fun _ hx => mem_canonName_fixed hx)

lemma canonName_append (a b : ColName) :
    canonName (a ++ b) = canonName a ++ canonName b := by
  simp [canonName, List.map_append, List.filter_append]

/-- Claim C8: column-name canonicalization (lower-casing, replacing ':'
with '_', removing spaces) is idempotent — canonicalizing an
already-canonical name yields the same name. -/
theorem claim_C8_canonicalization_idempotent (s : ColName) :
    canonName (canonName s) = canonName s :=
  canonName_idem s

/-- Claim C5: multi-geometry promotion is idempotent and
element-preserving, for each of the three partitions: a single-instance
geometry is replaced by its multi wrapper holding exactly that one
element, any geometry of a different type tag passes through unchanged,
and promoting an already-promoted geometry yields an equal geometry. -/
theorem claim_C5_promotion_idempotent_element_preserving :
    (∀ p, promotePointGeom (Geom.point p) = Geom.multiPoint [p]) ∧
    (∀ g, g.geomType ≠ GType.point → promotePointGeom g = g) ∧
    (∀ g, promotePointGeom (promotePointGeom g) = promotePointGeom g) ∧
    (∀ ps, promoteLineGeom (Geom.lineString ps) = Geom.multiLineString [ps]) ∧
    (∀ g, g.geomType ≠ GType.lineString → promoteLineGeom g = g) ∧
    (∀ g, promoteLineGeom (promoteLineGeom g) = promoteLineGeom g) ∧
    (∀ rs, promotePolyGeom (Geom.polygon rs) = Geom.multiPolygon [rs]) ∧
    (∀ g, g.geomType ≠ GType.polygon → promotePolyGeom g = g) ∧
    (∀ g, promotePolyGeom (promotePolyGeom g) = promotePolyGeom g) := by
  refine ⟨fun p => rfl, fun g hg => ?_, fun g => ?_, fun ps => rfl, fun g hg => ?_,
    fun g => ?_, fun rs => rfl, fun g hg => ?_, fun g => ?_⟩ <;>
    cases g <;> simp_all [promotePointGeom, promoteLineGeom, promotePolyGeom, Geom.geomType]

/-- Witness for C5 at concrete geometries. -/
theorem claim_C5_witness :
    promotePointGeom (Geom.point 7) = Geom.multiPoint [7] ∧
    promotePointGeom (Geom.multiPoint [7]) = Geom.multiPoint [7] ∧
    promoteLineGeom (Geom.multiLineString [[1, 2]]) = Geom.multiLineString [[1, 2]] := by
  have h := claim_C5_promotion_idempotent_element_preserving
  exact ⟨h.1 7, h.2.2.1 (Geom.point 7), h.2.2.2.2.1 (Geom.multiLineString [[1, 2]]) (by decide)⟩

/-- Claim C4: partitioning is total and disjoint over supported geometry
kinds: a record whose geometry tag is Point or MultiPoint lands in the
points partition and in no other, analogously for lines and polygons,
and a record of any other kind (a geometry collection) lands in no
partition — the partitions are filters, so no error is possible. -/
theorem claim_C4_partition_total_disjoint (rs : List NRec) (r : NRec) (h : r ∈ rs) :
    (isPointType r.geom.geomType = true →
      r ∈ pointsOf rs ∧ r ∉ linesOf rs ∧ r ∉ polysOf rs) ∧
    (isLineType r.geom.geomType = true →
      r ∈ linesOf rs ∧ r ∉ pointsOf rs ∧ r ∉ polysOf rs) ∧
    (isPolyType r.geom.geomType = true →
      r ∈ polysOf rs ∧ r ∉ pointsOf rs ∧ r ∉ linesOf rs) ∧
    (isPointType r.geom.geomType = false → isLineType r.geom.geomType = false →
      isPolyType r.geom.geomType = false →
      r ∉ pointsOf rs ∧ r ∉ linesOf rs ∧ r ∉ polysOf rs) := by
  cases hg : r.geom.geomType <;>
    simp [pointsOf, linesOf, polysOf, List.mem_filter, h, hg, isPointType, isLineType, isPolyType]

/-- Witness for C4: a point record and a collection record among three
records. -/
theorem claim_C4_witness :
    let rp : NRec := ⟨none, Geom.point 1, []⟩
    let rc : NRec := ⟨none, Geom.geometryCollection, []⟩
    let rs := [rp, ⟨none, Geom.polygon [[2]], []⟩, rc]
    (rp ∈ pointsOf rs ∧ rp ∉ linesOf rs ∧ rp ∉ polysOf rs) ∧
    (rc ∉ pointsOf rs ∧ rc ∉ linesOf rs ∧ rc ∉ polysOf rs) := by
  intro rp rc rs
  refine ⟨(claim_C4_partition_total_disjoint rs rp (by decide)).1 (by decide), ?_⟩
  exact (claim_C4_partition_total_disjoint rs rc (by decide)).2.2.2 (by decide) (by decide) (by decide)

/-! ## Orchestrator lemmas -/

/-- The frame a task contributes to the aggregate: its tagged record set
when the fetch succeeded, nothing when it failed. -/
def tagOf (t : Task) : Option DF :=
  match t.2 with
  | .ok gdf => some (addCountry t.1 gdf)
  | .error _ => none

/-- The console report one task produces. -/
def logOf (t : Task) : List Log :=
  match t.2 with
  | .ok _ => [.fetched t.1]
  | .error e => [.fetchFailed t.1 e]

def isFetchFailedLog (l : Log) : Bool :=
  match l with
  | .fetchFailed _ _ => true
  | _ => false

def isFailedTask (t : Task) : Bool :=
  match t.2 with
  | .error _ => true
  | _ => false

lemma processOne_eq (acc : List DF × List Log) (t : Task) :
    processOne acc t = (acc.1 ++ (tagOf t).toList, acc.2 ++ logOf t) := by
  rcases t with ⟨n, r⟩
  cases r <;> simp [processOne, fetchParksForCountryE, tagOf, logOf]

lemma foldl_processOne (l : List Task) (acc : List DF × List Log) :
    l.foldl processOne acc = (acc.1 ++ l.filterMap tagOf, acc.2 ++ l.flatMap logOf) := by
  induction l generalizing acc with
  | nil => simp
  | cons t l ih =>
    rw [List.foldl_cons, processOne_eq, ih]
    cases htag : tagOf t <;>
      simp [List.filterMap_cons, htag, List.append_assoc]

lemma map_getD_range {α : Type} (l : List α) (d : α) :
    (List.range l.length).map (fun i => l.getD i d) = l := by
  induction l with
  | nil => simp
  | cons a l ih =>
    rw [List.length_cons, List.range_succ_eq_map]
    simp only [List.map_cons, List.map_map, List.getD_cons_zero]
    have h : ((fun i => (a :: l).getD i d) ∘ Nat.succ) = fun i => l.getD i d := by
      funext i
      simp [List.getD_cons_succ]
    rw [h, ih]

lemma countP_flatMap_logOf (l : List Task) :
    (l.flatMap logOf).countP isFetchFailedLog = l.countP isFailedTask := by
  induction l with
  | nil => rfl
  | cons t l ih =>
    rcases t with ⟨n, r⟩
    cases r <;>
      simp [List.flatMap_cons, List.countP_append, List.countP_cons, ih, logOf,
        isFetchFailedLog, isFailedTask]

lemma retrieveParksParallel_eq (tasks : List Task) (order : List Nat) :
    retrieveParksParallel tasks order =
      ((order.map (fun i => tasks.getD i ([], .error []))).filterMap tagOf,
       (order.map (fun i => tasks.getD i ([], .error []))).flatMap logOf) := by
  rw [retrieveParksParallel, foldl_processOne]
  simp

/-- Claim C1: a failure of one country's fetch does not abort or block
any other country's fetch — for every task list and every completion
order (a permutation of the submitted indices), the aggregate is, up to
completion order, exactly the tagged record sets of the countries whose
fetch succeeded, every failing country is reported with its name, and
exactly as many failures are reported as there are failing fetches. -/
theorem claim_C1_failure_isolation (tasks : List Task) (order : List Nat)
    (h : order.Perm (List.range tasks.length)) :
    (retrieveParksParallel tasks order).1.Perm (tasks.filterMap tagOf) ∧
    (∀ t ∈ tasks, ∀ e, t.2 = Except.error e →
      Log.fetchFailed t.1 e ∈ (retrieveParksParallel tasks order).2) ∧
    (retrieveParksParallel tasks order).2.countP isFetchFailedLog =
      tasks.countP isFailedTask := by
  have hperm : (order.map (fun i => tasks.getD i ([], .error []))).Perm tasks := by
    have := h.map (fun i => tasks.getD i ([], .error []))
    rwa [map_getD_range] at this
  rw [retrieveParksParallel_eq]
  refine ⟨hperm.filterMap tagOf, ?_, ?_⟩
  · intro t ht e he
    have hmem : t ∈ order.map (fun i => tasks.getD i ([], .error [])) :=
      (hperm.mem_iff).mpr ht
    exact List.mem_flatMap.mpr ⟨t, hmem, by simp [logOf, he]⟩
  · rw [countP_flatMap_logOf]
    exact hperm.countP_eq isFailedTask

/-- Witness for C1: five countries of which exactly one fetch fails, in
a scrambled completion order — the aggregate holds the four successful
record sets and exactly one failure is reported, naming the country. -/
theorem claim_C1_witness :
    let dfA : DF := ⟨[[110, 97, 109, 101]], [⟨some (Geom.point 1), [some [65]]⟩]⟩
    let tasks : List Task :=
      [([65], .ok dfA), ([66], .error [120]), ([67], .ok dfA),
       ([68], .ok dfA), ([69], .ok dfA)]
    (retrieveParksParallel tasks [2, 0, 4, 1, 3]).1.Perm (tasks.filterMap tagOf) ∧
    (retrieveParksParallel tasks [2, 0, 4, 1, 3]).1.length = 4 ∧
    Log.fetchFailed [66] [120] ∈ (retrieveParksParallel tasks [2, 0, 4, 1, 3]).2 ∧
    (retrieveParksParallel tasks [2, 0, 4, 1, 3]).2.countP isFetchFailedLog = 1 := by
  intro dfA tasks
  have h := claim_C1_failure_isolation tasks [2, 0, 4, 1, 3] (by decide)
  exact ⟨h.1, by decide, h.2.1 ([66], .error [120]) (by decide) [120] rfl, by decide⟩

/-- Claim C10: fetch_parks_for_country never raises — its catch-all
converts every exception from the underlying feature query into a None
result, so future.result() always returns, a failed country leaves the
aggregate untouched (None silently omitted), and the orchestrator's own
exception branch is unreachable: no processing-error report is ever
produced. -/
theorem claim_C10_fetch_never_raises :
    (∀ (name : ColName) (res : Except Err DF),
      ∃ v lg, fetchParksForCountryE name res = (Except.ok v, lg)) ∧
    (∀ (name : ColName) (e : Err),
      (fetchParksForCountryE name (Except.error e)).1 = Except.ok none) ∧
    (∀ (acc : List DF × List Log) (t : Task) (e : Err),
      t.2 = Except.error e → (processOne acc t).1 = acc.1) ∧
    (∀ (tasks : List Task) (order : List Nat) (x : Log),
      x ∈ (retrieveParksParallel tasks order).2 →
      ∀ (c : ColName) (e : Err), x ≠ Log.processFailed c e) := by
  refine ⟨fun name res => ?_, fun name e => rfl, fun acc t e he => ?_, ?_⟩
  · cases res <;> exact ⟨_, _, rfl⟩
  · rw [processOne_eq]
    simp [tagOf, he]
  · intro tasks order x hx c e
    rw [retrieveParksParallel_eq] at hx
    rcases List.mem_flatMap.mp hx with ⟨t, _, hxt⟩
    rcases t with ⟨n, r⟩
    cases r <;> simp [logOf] at hxt <;> simp [hxt]

/-- Witness for C10 at a concrete failing task. -/
theorem claim_C10_witness :
    (processOne ([], []) (([66] : ColName), (Except.error [120] : Except Err DF))).1 = [] ∧
    (fetchParksForCountryE [66] (Except.error [120])).1 = Except.ok none := by
  refine ⟨claim_C10_fetch_never_raises.2.2.1 ([], []) ([66], Except.error [120]) [120] rfl, ?_⟩
  exact claim_C10_fetch_never_raises.2.1 [66] [120]

/-! ## Skip-on-no-data behaviour (save_parks_to_file entry) -/

lemma reindexRow_geom (oldCols newCols : List ColName) (r : Row) :
    (reindexRow oldCols newCols r).geom = r.geom := rfl

lemma rows1_nil_of_all_null (pd : List DF)
    (h : ∀ df ∈ pd, ∀ r ∈ df.rows, r.geom = none) : rows1 pd = [] := by
  apply List.filter_eq_nil_iff.mpr
  intro r hr
  rcases List.mem_flatMap.mp hr with ⟨df, hdf, hrdf⟩
  rcases List.mem_map.mp hrdf with ⟨r0, hr0, rfl⟩
  simp [reindexRow_geom, h df hdf r0 hr0]

/-- Counterexample to claim C3: a non-empty aggregate whose single record
has a null geometry is not skipped — save_parks_to_file only tests
whether the list of per-country frames is empty, so this input proceeds
past the guard instead of yielding the skipped outcome. -/
theorem claim_C3_counterexample :
    (([⟨[[110, 97, 109, 101]], [⟨none, [some [65]]⟩]⟩] : List DF) ≠ []) ∧
    (∀ df ∈ ([⟨[[110, 97, 109, 101]], [⟨none, [some [65]]⟩]⟩] : List DF),
      ∀ r ∈ df.rows, r.geom = none) ∧
    saveParksToFile [⟨[[110, 97, 109, 101]], [⟨none, [some [65]]⟩]⟩] ≠
      SaveOutcome.skippedNoData := by
  refine ⟨by decide, ?_, by decide⟩
  decide

/-- Claim C3 as amended: persistence is skipped exactly when the
aggregate list of fetched frames is empty; a non-empty aggregate all of
whose records have null geometry is not skipped — the writer is still
invoked, with three empty partitions (when a name column exists). -/
theorem claim_C3_amended_skip_iff_empty (pd : List DF) :
    (saveParksToFile pd = SaveOutcome.skippedNoData ↔ pd = []) ∧
    (pd ≠ [] → (∀ df ∈ pd, ∀ r ∈ df.rows, r.geom = none) →
      nameCodes ∈ finalCols pd →
      saveParksToFile pd = SaveOutcome.wrote [] [] []) := by
  constructor
  · constructor
    · intro h
      by_contra hne
      rw [saveParksToFile, if_neg (by simpa using hne)] at h
      cases hnorm : normalizeRecords pd <;> rw [hnorm] at h <;> simp at h
    · intro h
      subst h
      rfl
  · intro hne hnull hname
    have hr1 : rows1 pd = [] := rows1_nil_of_all_null pd hnull
    have hr2 : rows2 pd = [] := by rw [rows2, hr1]; rfl
    have hnorm : normalizeRecords pd = .ok [] := by
      rw [normalizeRecords, if_pos hname, hr2]
      rfl
    rw [saveParksToFile, if_neg (by simpa using hne), hnorm]
    rfl

/-- Witness for the amended C3 at a concrete all-null input. -/
theorem claim_C3_witness :
    saveParksToFile [] = SaveOutcome.skippedNoData ∧
    saveParksToFile [⟨[[110, 97, 109, 101]], [⟨none, [some [65]]⟩]⟩] =
      SaveOutcome.wrote [] [] [] := by
  constructor
  · exact (claim_C3_amended_skip_iff_empty []).1.mpr rfl
  · exact (claim_C3_amended_skip_iff_empty _).2 (by decide) (by decide) (by decide)

/-! ## Alignment lemmas: cells stay aligned with the column list -/

lemma filter_zip_by_fst (P : ColName → Bool) :
    ∀ (cols : List ColName) (cells : List Cell), cols.length = cells.length →
      ((cols.zip cells).filter (fun p => P p.1)).map Prod.fst = cols.filter P := by
  intro cols
  induction cols with
  | nil => intro cells _; rfl
  | cons c cs ih =>
    intro cells h
    cases cells with
    | nil => simp at h
    | cons v vs =>
      have hlen : cs.length = vs.length := by simpa using h
      cases hP : P c <;>
        simp [List.zip_cons_cons, List.filter_cons, hP, ih vs hlen]

lemma length_dropFidCells (cols : List ColName) (cells : List Cell)
    (h : cols.length = cells.length) :
    (dropFidCells cols cells).length =
      (cols.filter (fun c => decide (c ≠ fidCodes))).length := by
  have hf := filter_zip_by_fst (fun c => decide (c ≠ fidCodes)) cols cells h
  calc (dropFidCells cols cells).length
      = (((cols.zip cells).filter (fun p => decide (p.1 ≠ fidCodes))).map Prod.fst).length := by
        simp [dropFidCells]
    _ = (cols.filter (fun c => decide (c ≠ fidCodes))).length := by rw [hf]

lemma length_renameDupColsAux : ∀ (cols : List ColName) (seen : List ColName),
    (renameDupColsAux seen cols).length = cols.length := by
  intro cols
  induction cols with
  | nil => intro seen; rfl
  | cons c cs ih => intro seen; simp [renameDupColsAux, ih]

lemma length_renameDupCols (cols : List ColName) :
    (renameDupCols cols).length = (cols.filter (fun c => decide (c ≠ fidCodes))).length := by
  rw [renameDupCols, length_renameDupColsAux]

lemma rows2_cells_align (pd : List DF) :
    ∀ r ∈ rows2 pd, r.cells.length = (finalCols pd).length := by
  intro r hr
  rcases List.mem_map.mp hr with ⟨r1, hr1, rfl⟩
  have hr0 : r1 ∈ rows0 pd := List.mem_of_mem_filter hr1
  rcases List.mem_flatMap.mp hr0 with ⟨df, _, hrdf⟩
  rcases List.mem_map.mp hrdf with ⟨r0, _, rfl⟩
  have h0 : (reindexRow df.cols (allColsOf pd) r0).cells.length = (allColsOf pd).length := by
    simp [reindexRow]
  have h1 : (dropFidCells (allColsOf pd) (reindexRow df.cols (allColsOf pd) r0).cells).length =
      (cols1 pd).length := by
    rw [length_dropFidCells _ _ h0.symm, cols1, length_renameDupCols]
  have h2 : (dropFidCells (cols1 pd)
      (dropFidCells (allColsOf pd) (reindexRow df.cols (allColsOf pd) r0).cells)).length =
      (finalCols pd).length := by
    rw [length_dropFidCells _ _ h1.symm, finalCols, length_renameDupCols]
  exact h2

/-- Claim C6: whenever normalization succeeds, every record's properties
blob carries exactly the canonicalized keys of its source record other
than name and geometry (in schema order), and the produced records are
exactly the three-field {name, geometry, properties} projections of the
source rows — no other top-level field survives. -/
theorem claim_C6_properties_exact_keys (pd : List DF) (nrecs : List NRec)
    (h : normalizeRecords pd = .ok nrecs) :
    nrecs = (rows2 pd).map (mkNRec (finalCols pd)) ∧
    ∀ r ∈ nrecs,
      r.props.map Prod.fst =
        (finalCols pd).filter
          (fun c => decide (c ≠ nameCodes) && decide (c ≠ geomCodes)) ∧
      ∀ p ∈ r.props, p.1 ≠ nameCodes ∧ p.1 ≠ geomCodes := by
  have hmem : nameCodes ∈ finalCols pd := by
    by_contra hne
    rw [normalizeRecords, if_neg hne] at h
    exact Except.noConfusion h
  rw [normalizeRecords, if_pos hmem] at h
  have hrec : nrecs = (rows2 pd).map (mkNRec (finalCols pd)) := by
    injection h with h
    exact h.symm
  refine ⟨hrec, ?_⟩
  intro r hrmem
  rw [hrec] at hrmem
  rcases List.mem_map.mp hrmem with ⟨row, hrow, rfl⟩
  constructor
  · have halign := rows2_cells_align pd row hrow
    exact filter_zip_by_fst
      (fun c => decide (c ≠ nameCodes) && decide (c ≠ geomCodes))
      (finalCols pd) row.cells halign.symm
  · intro p hp
    have := (List.mem_filter.mp hp).2
    constructor <;> intro heq <;> simp [heq] at this

/-- Witness for C6 at a concrete input with one extra attribute. -/
theorem claim_C6_witness :
    let pd : List DF :=
      [⟨[[110, 97, 109, 101], [107]], [⟨some (Geom.point 0), [some [65], some [66]]⟩]⟩]
    let nrecs : List NRec := [⟨some [65], Geom.point 0, [([107], some [66])]⟩]
    nrecs = (rows2 pd).map (mkNRec (finalCols pd)) ∧
    ∀ r ∈ nrecs,
      r.props.map Prod.fst =
        (finalCols pd).filter
          (fun c => decide (c ≠ nameCodes) && decide (c ≠ geomCodes)) ∧
      ∀ p ∈ r.props, p.1 ≠ nameCodes ∧ p.1 ≠ geomCodes := by
  intro pd nrecs
  exact claim_C6_properties_exact_keys pd nrecs (by decide)

/-- Counterexample to claim C7: when no record of the merged set carries
a name attribute there is no name column, and normalization raises
(pandas KeyError on row.drop(["name", "geometry"])) instead of producing
records with an empty or missing name. -/
theorem claim_C7_counterexample :
    ([⟨[], [⟨some (Geom.point 0), []⟩]⟩] : List DF) ≠ [] ∧
    nameCodes ∉ finalCols [⟨[], [⟨some (Geom.point 0), []⟩]⟩] ∧
    normalizeRecords [⟨[], [⟨some (Geom.point 0), []⟩]⟩] = .error () := by
  refine ⟨by decide, by decide, by decide⟩

/-- Claim C7 as amended: when the merged set has a name column,
each record's name is the value of its (first) name column — missing
when the record lacks the attribute — its geometry is kept as-is, and
every other attribute is serialized into properties under the resolved
canonical keys; when no record has a name attribute, normalization
fails with a KeyError instead of producing unnamed records. -/
theorem claim_C7_amended_name_handling (pd : List DF) :
    (nameCodes ∉ finalCols pd → normalizeRecords pd = .error ()) ∧
    (∀ nrecs, normalizeRecords pd = .ok nrecs →
      nrecs.length = (rows2 pd).length ∧
      ∀ i, i < nrecs.length →
        (nrecs.getD i ⟨none, Geom.point 0, []⟩).name =
          cellAt (finalCols pd) ((rows2 pd).getD i ⟨none, []⟩).cells nameCodes ∧
        (nrecs.getD i ⟨none, Geom.point 0, []⟩).geom =
          ((rows2 pd).getD i ⟨none, []⟩).geom.getD (Geom.point 0) ∧
        (nrecs.getD i ⟨none, Geom.point 0, []⟩).props =
          mkProps (finalCols pd) ((rows2 pd).getD i ⟨none, []⟩).cells) := by
  constructor
  · intro hne
    rw [normalizeRecords, if_neg hne]
  · intro nrecs h
    have hmem : nameCodes ∈ finalCols pd := by
      by_contra hne
      rw [normalizeRecords, if_neg hne] at h
      exact Except.noConfusion h
    rw [normalizeRecords, if_pos hmem] at h
    injection h with h
    subst h
    refine ⟨by simp, ?_⟩
    intro i hi
    have hlen : i < (rows2 pd).length := by simpa using hi
    have hget : ((rows2 pd).map (mkNRec (finalCols pd))).getD i ⟨none, Geom.point 0, []⟩ =
        mkNRec (finalCols pd) ((rows2 pd).getD i ⟨none, []⟩) := by
      rw [List.getD_eq_getElem _ _ hi, List.getD_eq_getElem _ _ hlen, List.getElem_map]
    rw [hget]
    exact ⟨rfl, rfl, rfl⟩

/-- Witness for the amended C7: one record with a name attribute and one
without, plus the failing no-name-column input. -/
theorem claim_C7_witness :
    let pd : List DF :=
      [⟨[[110, 97, 109, 101]], [⟨some (Geom.point 0), [some [65]]⟩, ⟨some (Geom.point 1), [none]⟩]⟩]
    (normalizeRecords [⟨[], [⟨some (Geom.point 0), []⟩]⟩] = .error ()) ∧
    (∀ nrecs, normalizeRecords pd = .ok nrecs → nrecs.length = (rows2 pd).length) := by
  intro pd
  constructor
  · exact (claim_C7_amended_name_handling [⟨[], [⟨some (Geom.point 0), []⟩]⟩]).1 (by decide)
  · intro nrecs h
    exact ((claim_C7_amended_name_handling pd).2 nrecs h).1

/-! ## Shape of resolved column names (used for the fid claim) -/

lemma freeSuffix_shape (seen : List ColName) (base : ColName) :
    ∀ fuel count, ∃ k, freeSuffix seen base fuel count = suffixed base k := by
  intro fuel
  induction fuel with
  | zero => intro count; exact ⟨count, rfl⟩
  | succ fuel ih =>
    intro count
    rw [freeSuffix]
    split
    · exact ih (count + 1)
    · exact ⟨count, rfl⟩

lemma resolveCol_shape (seen : List ColName) (c : ColName) :
    resolveCol seen c = canonName c ∨
      ∃ k, resolveCol seen c = suffixed (canonName c) k := by
  rw [resolveCol]
  split
  · exact Or.inr (freeSuffix_shape seen (canonName c) (seen.length + 1) 1)
  · exact Or.inl rfl

lemma natDigitsAux_bounds : ∀ (fuel n x : Nat), x ∈ natDigitsAux fuel n →
    48 ≤ x ∧ x ≤ 57 := by
  intro fuel
  induction fuel with
  | zero => intro n x hx; simp [natDigitsAux] at hx
  | succ fuel ih =>
    intro n x hx
    rw [natDigitsAux] at hx
    split at hx
    · rcases List.mem_singleton.mp hx with rfl
      omega
    · rcases List.mem_append.mp hx with h | h
      · exact ih _ _ h
      · rcases List.mem_singleton.mp h with rfl
        have : n % 10 < 10 := Nat.mod_lt n (by omega)
        omega

lemma natDigits_bounds (n x : Nat) (hx : x ∈ natDigits n) : 48 ≤ x ∧ x ≤ 57 :=
  natDigitsAux_bounds (n + 1) n x hx

/-- Canonicalization fixes the suffix part (an underscore and decimal
digits). -/
lemma canonName_suffixed (b : ColName) (k : Nat) :
    canonName (suffixed b k) = suffixed (canonName b) k := by
  rw [suffixed, suffixed, canonName_append]
  congr 1
  apply canonName_of_fixed
  intro x hx
  rcases List.mem_cons.mp hx with rfl | hx
  · refine ⟨?_, ?_, ?_⟩ <;> simp [lowerChar, colonToUnderscore]
  · have := natDigits_bounds k x hx
    refine ⟨?_, ?_, ?_⟩ <;> simp [lowerChar, colonToUnderscore] <;> omega

lemma mem_renameDupColsAux_shape :
    ∀ (cols seen : List ColName) (x : ColName), x ∈ renameDupColsAux seen cols →
      ∃ c ∈ cols, x = canonName c ∨ ∃ k, x = suffixed (canonName c) k := by
  intro cols
  induction cols with
  | nil => intro seen x hx; simp [renameDupColsAux] at hx
  | cons c cs ih =>
    intro seen x hx
    rw [renameDupColsAux] at hx
    rcases List.mem_cons.mp hx with rfl | hx
    · rcases resolveCol_shape seen c with h | ⟨k, h⟩
      · exact ⟨c, List.mem_cons_self c cs, Or.inl h⟩
      · exact ⟨c, List.mem_cons_self c cs, Or.inr ⟨k, h⟩⟩
    · rcases ih _ x hx with ⟨c0, hc0, hshape⟩
      exact ⟨c0, List.mem_cons_of_mem c hc0, hshape⟩

/-- Every output of the renaming loop is a canonical name. -/
lemma canon_fixed_of_mem_renameDupColsAux {seen cols : List ColName} {x : ColName}
    (hx : x ∈ renameDupColsAux seen cols) : canonName x = x := by
  rcases mem_renameDupColsAux_shape cols seen x hx with ⟨c, _, h | ⟨k, h⟩⟩
  · rw [h, canonName_idem]
  · rw [h, canonName_suffixed, canonName_idem]

lemma suffixed_ne_fid (b : ColName) (k : Nat) : suffixed b k ≠ fidCodes := by
  intro h
  have h95 : (95 : Nat) ∈ suffixed b k := by
    simp [suffixed]
  rw [h] at h95
  simp [fidCodes] at h95

/-- Counterexample to claim C9: with original spellings FID and Fid —
both canonicalize to fid — the second column survives both
rename_duplicated_columns passes as fid_1, because the deletion tests
only the literal label fid before canonicalization; a column whose
original spelling canonicalizes to the reserved identifier therefore
reaches the normalized schema. -/
theorem claim_C9_counterexample :
    canonName [70, 73, 68] = fidCodes ∧
    canonName [70, 105, 100] = fidCodes ∧
    renameDupCols (renameDupCols [[70, 73, 68], [70, 105, 100]]) =
      [[102, 105, 100, 95, 49]] := by
  refine ⟨by decide, by decide, by decide⟩

/-- Claim C9 as amended: after the two rename_duplicated_columns passes
no surviving column is literally named fid — the bare canonical reserved
name is always removed — but colliding spellings that received a numeric
suffix (fid_1, ...) survive. -/
theorem claim_C9_amended_no_literal_fid (cols : List ColName) :
    fidCodes ∉ renameDupCols (renameDupCols cols) := by
  intro hmem
  rw [renameDupCols] at hmem
  rcases mem_renameDupColsAux_shape _ _ _ hmem with ⟨c, hc, hshape⟩
  have hcfilter := List.mem_filter.mp hc
  have hcne : c ≠ fidCodes := by simpa using hcfilter.2
  have hcanon : canonName c = c :=
    canon_fixed_of_mem_renameDupColsAux hcfilter.1
  rcases hshape with h | ⟨k, h⟩
  · rw [hcanon] at h
    exact hcne h.symm
  · rw [hcanon] at h
    exact suffixed_ne_fid c k h.symm

/-! ## Decimal representation is injective (termination of the while
loop's candidate search) -/

/-- Numeric value of a decimal digit string, the left inverse of
natDigits. -/
def ofDigits (l : List Nat) : Nat := l.foldl (fun acc d => acc * 10 + (d - 48)) 0

lemma ofDigits_append_last (a : List Nat) (d : Nat) :
    ofDigits (a ++ [d]) = ofDigits a * 10 + (d - 48) := by
  simp [ofDigits, List.foldl_append]

lemma ofDigits_natDigitsAux : ∀ (fuel n : Nat), n < 10 ^ fuel →
    ofDigits (natDigitsAux fuel n) = n := by
  intro fuel
  induction fuel with
  | zero =>
    intro n h
    have : n = 0 := by simpa using h
    subst this
    rfl
  | succ fuel ih =>
    intro n h
    rw [natDigitsAux]
    split
    · simp [ofDigits]
    · have hdiv : n / 10 < 10 ^ fuel := by
        rw [Nat.div_lt_iff_lt_mul (by omega)]
        calc n < 10 ^ (fuel + 1) := h
          _ = 10 ^ fuel * 10 := by rw [Nat.pow_succ]
      rw [ofDigits_append_last, ih (n / 10) hdiv]
      have := Nat.div_add_mod n 10
      omega

lemma lt_ten_pow_succ (n : Nat) : n < 10 ^ (n + 1) := by
  have h1 : n < 10 ^ n := Nat.lt_pow_self (by omega) n
  have h2 : 10 ^ n ≤ 10 ^ (n + 1) := Nat.pow_le_pow_right (by omega) (by omega)
  omega

lemma ofDigits_natDigits (n : Nat) : ofDigits (natDigits n) = n :=
  ofDigits_natDigitsAux (n + 1) n (lt_ten_pow_succ n)

lemma natDigits_inj {m n : Nat} (h : natDigits m = natDigits n) : m = n := by
  have hm := ofDigits_natDigits m
  rw [h, ofDigits_natDigits] at hm
  omega

lemma suffixed_inj {b : ColName} {j k : Nat} (h : suffixed b j = suffixed b k) :
    j = k := by
  rw [suffixed, suffixed] at h
  have h2 := List.append_cancel_left h
  have h3 : natDigits j = natDigits k := by
    injection h2
  exact natDigits_inj h3

/-- Pigeonhole: among the candidates base_1 … base_(n+1), with n the
size of the seen set, some candidate is free. -/
lemma exists_free_suffix (seen : List ColName) (b : ColName) :
    ∃ k, 1 ≤ k ∧ k ≤ seen.length + 1 ∧ suffixed b k ∉ seen := by
  by_contra h
  push_neg at h
  have hinj : Function.Injective (fun i : Nat => suffixed b (i + 1)) := by
    intro i j hij
    have := suffixed_inj hij
    omega
  have hsub : (Finset.range (seen.length + 1)).image (fun i => suffixed b (i + 1)) ⊆
      seen.toFinset := by
    intro x hx
    rcases Finset.mem_image.mp hx with ⟨i, hi, rfl⟩
    have hir := Finset.mem_range.mp hi
    exact List.mem_toFinset.mpr (h (i + 1) (by omega) (by omega))
  have h1 : ((Finset.range (seen.length + 1)).image (fun i => suffixed b (i + 1))).card =
      seen.length + 1 := by
    rw [Finset.card_image_of_injective _ hinj, Finset.card_range]
  have h2 := Finset.card_le_card hsub
  have h3 := seen.toFinset_card_le
  omega

/-- The while loop returns the first free candidate at or after count,
provided one exists within the fuel. -/
lemma freeSuffix_spec (seen : List ColName) (b : ColName) :
    ∀ (fuel count : Nat), (∃ k, count ≤ k ∧ k < count + fuel ∧ suffixed b k ∉ seen) →
      ∃ k, count ≤ k ∧ suffixed b k ∉ seen ∧
        (∀ j, count ≤ j → j < k → suffixed b j ∈ seen) ∧
        freeSuffix seen b fuel count = suffixed b k := by
  intro fuel
  induction fuel with
  | zero =>
    intro count hex
    rcases hex with ⟨k, h1, h2, _⟩
    omega
  | succ fuel ih =>
    intro count hex
    rcases hex with ⟨k, hk1, hk2, hk3⟩
    rw [freeSuffix]
    by_cases hc : suffixed b count ∈ seen
    · rw [if_pos hc]
      have hkne : k ≠ count := fun he => hk3 (he ▸ hc)
      rcases ih (count + 1) ⟨k, by omega, by omega, hk3⟩ with ⟨m, h1, h2, h3, h4⟩
      refine ⟨m, by omega, h2, ?_, h4⟩
      intro j hj1 hj2
      rcases Nat.eq_or_lt_of_le hj1 with rfl | hj
      · exact hc
      · exact h3 j (by omega) hj2
    · rw [if_neg hc]
      exact ⟨count, Nat.le_refl _, hc, fun j hj1 hj2 => absurd hj1 (by omega), rfl⟩

/-- resolveCol keeps the bare canonical name when free, otherwise picks
the least free numeric suffix. -/
lemma resolveCol_spec (seen : List ColName) (c : ColName) :
    (canonName c ∉ seen → resolveCol seen c = canonName c) ∧
    (canonName c ∈ seen →
      ∃ k, 1 ≤ k ∧ suffixed (canonName c) k ∉ seen ∧
        (∀ j, 1 ≤ j → j < k → suffixed (canonName c) j ∈ seen) ∧
        resolveCol seen c = suffixed (canonName c) k) := by
  constructor
  · intro h
    rw [resolveCol, if_neg h]
  · intro h
    rw [resolveCol, if_pos h]
    have hex : ∃ k, 1 ≤ k ∧ k < 1 + (seen.length + 1) ∧ suffixed (canonName c) k ∉ seen := by
      rcases exists_free_suffix seen (canonName c) with ⟨k, h1, h2, h3⟩
      exact ⟨k, h1, by omega, h3⟩
    rcases freeSuffix_spec seen (canonName c) (seen.length + 1) 1 hex with ⟨k, h1, h2, h3, h4⟩
    exact ⟨k, h1, h2, h3, h4⟩

/-- Characterization of the renaming loop with an arbitrary starting
seen set: the name assigned at position i is the bare canonical name
when no earlier output (or initial seen entry) took it, and otherwise
the canonical name with the least numeric suffix not yet taken. -/
lemma renameDupColsAux_char :
    ∀ (cols seen : List ColName) (i : Nat), i < cols.length →
      ((¬ (canonName (cols.getD i []) ∈ (renameDupColsAux seen cols).take i ∨
            canonName (cols.getD i []) ∈ seen)) →
        (renameDupColsAux seen cols).getD i [] = canonName (cols.getD i [])) ∧
      ((canonName (cols.getD i []) ∈ (renameDupColsAux seen cols).take i ∨
          canonName (cols.getD i []) ∈ seen) →
        ∃ k, 1 ≤ k ∧
          (renameDupColsAux seen cols).getD i [] = suffixed (canonName (cols.getD i [])) k ∧
          (¬ (suffixed (canonName (cols.getD i [])) k ∈ (renameDupColsAux seen cols).take i ∨
              suffixed (canonName (cols.getD i [])) k ∈ seen)) ∧
          ∀ j, 1 ≤ j → j < k →
            (suffixed (canonName (cols.getD i [])) j ∈ (renameDupColsAux seen cols).take i ∨
             suffixed (canonName (cols.getD i [])) j ∈ seen)) := by
  intro cols
  induction cols with
  | nil =>
    intro seen i hi
    simp at hi
  | cons c cs ih =>
    intro seen i hi
    cases i with
    | zero =>
      simp only [renameDupColsAux, List.take_zero, List.getD_cons_zero,
        List.not_mem_nil, false_or]
      exact ⟨(resolveCol_spec seen c).1, fun h => by
        rcases (resolveCol_spec seen c).2 h with ⟨k, h1, h2, h3, h4⟩
        exact ⟨k, h1, h4, h2, fun j hj1 hj2 => h3 j hj1 hj2⟩⟩
    | succ i =>
      have hi' : i < cs.length := by simpa using hi
      rcases ih (resolveCol seen c :: seen) i hi' with ⟨ih1, ih2⟩
      set r := resolveCol seen c with hr
      set rest := renameDupColsAux (r :: seen) cs with hrest
      have hiff : ∀ x : ColName,
          (x ∈ rest.take i ∨ x ∈ r :: seen) ↔
          (x ∈ (r :: rest).take (i + 1) ∨ x ∈ seen) := by
        intro x
        rw [List.take_succ_cons]
        simp only [List.mem_cons]
        tauto
      have hgetD : (r :: rest).getD (i + 1) [] = rest.getD i [] := by
        simp [List.getD_cons_succ]
      have hcols : (c :: cs).getD (i + 1) [] = cs.getD i [] := by
        simp [List.getD_cons_succ]
      rw [renameDupColsAux]
      constructor
      · intro hno
        rw [hcols, hgetD]
        exact ih1 (fun hmem => hno ((hiff _).mp hmem))
      · intro hmem
        rw [hcols, hgetD]
        rcases ih2 ((hiff _).mpr (by rw [← hcols]; exact hmem)) with ⟨k, h1, h2, h3, h4⟩
        rw [← hcols]
        refine ⟨k, h1, by rw [hcols]; exact h2, ?_, ?_⟩
        · intro hk
          exact h3 ((hiff _).mpr hk)
        · intro j hj1 hj2
          exact (hiff _).mp (h4 j hj1 hj2)

/-- Claim C2: column-name collision resolution is deterministic and
order-preserving — for every column-name sequence (not containing the
separately-deleted literal fid), the output has one name per input
column, a column whose canonical name was not taken by any earlier
output keeps the bare canonical name, and a colliding occurrence
receives the least numeric suffix (_1, _2, …) not already taken by an
earlier output, in first-seen order. -/
theorem claim_C2_collision_resolution (cols : List ColName)
    (hfid : fidCodes ∉ cols) :
    (renameDupCols cols).length = cols.length ∧
    ∀ i, i < cols.length →
      (canonName (cols.getD i []) ∉ (renameDupCols cols).take i →
        (renameDupCols cols).getD i [] = canonName (cols.getD i [])) ∧
      (canonName (cols.getD i []) ∈ (renameDupCols cols).take i →
        ∃ k, 1 ≤ k ∧
          (renameDupCols cols).getD i [] = suffixed (canonName (cols.getD i [])) k ∧
          suffixed (canonName (cols.getD i [])) k ∉ (renameDupCols cols).take i ∧
          ∀ j, 1 ≤ j → j < k →
            suffixed (canonName (cols.getD i [])) j ∈ (renameDupCols cols).take i) := by
  have hfilter : cols.filter (fun c => decide (c ≠ fidCodes)) = cols := by
    apply List.filter_eq_self.mpr
    intro a ha
    simp only [decide_eq_true_eq]
    intro he
    exact hfid (he ▸ ha)
  have hout : renameDupCols cols = renameDupColsAux [] cols := by
    rw [renameDupCols, hfilter]
  constructor
  · rw [hout, length_renameDupColsAux]
  · intro i hi
    rcases renameDupColsAux_char cols [] i hi with ⟨h1, h2⟩
    rw [hout]
    constructor
    · intro hno
      exact h1 (by simpa using hno)
    · intro hmem
      rcases h2 (by simpa using hmem) with ⟨k, hk1, hk2, hk3, hk4⟩
      refine ⟨k, hk1, hk2, by simpa using hk3, ?_⟩
      intro j hj1 hj2
      have := hk4 j hj1 hj2
      simpa using this

/-- Witness for C2: the spec's example — the keys Name, NAME resolve to
name, name_1. -/
theorem claim_C2_witness :
    renameDupCols [[78, 97, 109, 101], [78, 65, 77, 69]] =
      [[110, 97, 109, 101], [110, 97, 109, 101, 95, 49]] ∧
    (renameDupCols [[78, 97, 109, 101], [78, 65, 77, 69]]).length = 2 := by
  have h := claim_C2_collision_resolution [[78, 97, 109, 101], [78, 65, 77, 69]] (by decide)
  exact ⟨by decide, h.1⟩

end NationalParks
